import Mathlib

/-!
Shallow embedding of the sumit changelog generator (src/cmd/root.go).

Go strings are modelled as lists of characters (abbreviation Str).
The Go string helpers used by the program (strings.Split with a
one-character separator, strings.TrimSuffix, strings.HasPrefix via
isPrefixOf, strings.TrimPrefix via drop under a prefix guard) are
translated to structurally recursive Lean functions with the same
semantics. The cobra command body (rootCmd.Run) is embedded as a pure
function over a GitWorld record that captures the responses of the
go-git library: the result of PlainOpen, of Remote, of Head, of Log,
the commits the log iterator yields, and the error, if any, with which
the iterator terminates.
-/

abbrev Str := List Char

def str (s : String) : Str := s.data

/-- Go strings.Split with a one-character separator. It never returns
an empty list, and splitting the empty string yields one empty field,
exactly as in Go. -/
def splitOnChar (sep : Char) : Str → List Str
  | [] => [[]]
  | c :: cs =>
    if c = sep then
      [] :: splitOnChar sep cs
    else
      match splitOnChar sep cs with
      | [] => [[c]]
      | p :: ps => (c :: p) :: ps

/-- Go strings.TrimSuffix: drop the suffix when present, identity otherwise. -/
def trimSuf (suf l : Str) : Str :=
  if suf.isSuffixOf l then l.take (l.length - suf.length) else l

/-- The characters of the literal https scheme marker the source tests with
strings.HasPrefix and feeds to strings.TrimPrefix. -/
def httpsPre : Str := ['h', 't', 't', 'p', 's', ':', '/', '/']

/-- The characters of the literal marker for SSH remotes. -/
def gitAtPre : Str := ['g', 'i', 't', '@']

/-- The characters of the suffix stripped from the repository segment. -/
def dotGit : Str := ['.', 'g', 'i', 't']

/-- The two error shapes produced by parseRemoteURL: the source formats
them as the strings invalid remote url structure and unsupported remote
url structure, each followed by the offending URL. -/
inductive ParseErr where
  | invalid (url : Str)
  | unsupported (url : Str)
deriving DecidableEq, Repr

/-- The message the source formats for each ParseErr. -/
def errText : ParseErr → Str
  | ParseErr.invalid u => str "invalid remote url structure: " ++ u
  | ParseErr.unsupported u => str "unsupported remote url structure: " ++ u

/-- Embedding of parseRemoteURL (src/cmd/root.go lines 104 to 137).
The https branch splits the remainder on the slash character and
requires at least three parts; the SSH branch splits the remainder on
the colon character, requires at least two parts, splits the second
part on the slash character and again requires at least two parts. In
both branches only the leading parts are used and a trailing .git is
stripped from the repository segment. -/
def parseRemoteURL (url : Str) : Except ParseErr Str :=
  if httpsPre.isPrefixOf url then
    let trimURL := url.drop httpsPre.length
    match splitOnChar '/' trimURL with
    | p0 :: p1 :: p2 :: _ =>
      Except.ok (httpsPre ++ p0 ++ '/' :: p1 ++ '/' :: trimSuf dotGit p2)
    | _ => Except.error (ParseErr.invalid url)
  else if gitAtPre.isPrefixOf url then
    let trimURL := url.drop gitAtPre.length
    match splitOnChar ':' trimURL with
    | p0 :: p1 :: _ =>
      (match splitOnChar '/' p1 with
       | r0 :: r1 :: _ =>
         Except.ok (httpsPre ++ p0 ++ '/' :: r0 ++ '/' :: trimSuf dotGit r1)
       | _ => Except.error (ParseErr.invalid url))
    | _ => Except.error (ParseErr.invalid url)
  else
    Except.error (ParseErr.unsupported url)







/-- One changelog line: short hash, first message line, optional link. -/
structure Change where
  SHA : Str
  Title : Str
  URL : Str
deriving DecidableEq, Repr

/-- The record rendered by the fixed template. -/
structure Release where
  Version : Str
  Date : Str
  Changes : List Change
deriving DecidableEq, Repr

/-- The text the fixed template emits for one Change: a leading line
break, a dash, the title, one space, then the bracketed short hash,
with the link in parentheses exactly when the URL field is non-empty. -/
def changeLine (c : Change) : Str :=
  str "\n- " ++ c.Title ++ str " " ++
    (if c.URL = [] then str "[" ++ c.SHA ++ str "]"
     else str "[" ++ c.SHA ++ str "](" ++ c.URL ++ str ")")

/-- The full text produced by executing releaseTemplate on a Release. -/
def renderRelease (r : Release) : Str :=
  str "\n## [" ++ r.Version ++ str "] - " ++ r.Date ++ str "\n" ++
    (r.Changes.map changeLine).flatten ++ str "\n"

/-- The stream a line is printed on. fmt.Printf writes to standard output. -/
inductive Channel where
  | stdout
  | stderr
deriving DecidableEq, Repr

/-- Observable outcome of one invocation: a terminal error print with an
exit status, a runtime panic, or the rendered changelog on standard
output with the assembled Release kept for inspection. -/
inductive RunResult where
  | exited (status : Nat) (ch : Channel) (line : Str)
  | panicked
  | output (rel : Release) (text : Str)
deriving DecidableEq, Repr

/-- The exact line bail prints: fmt.Printf with the format string
consisting of a line break, the bold red escape code, the text error
followed by a colon, a space and the message, the reset escape code and
a final line break. -/
def bailLine (msg : Str) : Str :=
  str "\n\x1b[31;1m" ++ (str "error: " ++ msg) ++ str "\x1b[0m\n"

/-- Embedding of bail (src/cmd/root.go lines 20 to 24) applied to a
non-nil error: print the formatted line via fmt.Printf, which writes to
standard output, then os.Exit(1). -/
def bail (msg : Str) : RunResult :=
  RunResult.exited 1 Channel.stdout (bailLine msg)

/-- errors.Wrap as observed through the percent-s verb: the context, a
colon and a space, then the wrapped message. -/
def wrapErr (ctx e : Str) : Str := ctx ++ str ": " ++ e

/-- Responses of the go-git library during one invocation: the result
of git.PlainOpen, of repo.Remote with name origin (carrying the
configured URL list on success), of repo.Head (carrying the hash), of
repo.Log, the commits the log iterator yields as pairs of full hash and
raw message, and the error, if any, with which iter.ForEach stops. -/
structure GitWorld where
  repoOpen : Except Str Unit
  origin : Except Str (List Str)
  head : Except Str Str
  logSetup : Except Str Unit
  commits : List (Str × Str)
  iterErr : Option Str

/-- The Change built in the body of iter.ForEach (src/cmd/root.go lines
86 to 97): the SHA is the hash truncated to seven characters, the Title
is element zero of splitting the message on the line break character,
and the URL is the remote base, the literal commits path and the full
hash when a base is available, else empty. -/
def mkChange (base : Option Str) (p : Str × Str) : Change :=
  { SHA := p.1.take 7,
    Title := (splitOnChar '\n' p.2).headD [], URL :=
      match base with
      | some r => r ++ str "/commits/" ++ p.1
      | none => [] }

/-- The tail of rootCmd.Run after the remote has been resolved: bail on
a Head error, bail on a Log error, then assemble the Release from every
commit the iterator yielded and render it. The error value returned by
iter.ForEach is assigned to err in the source and never checked, so it
does not influence the result; the Release is rendered regardless. -/
def buildAndRender (w : GitWorld) (base : Option Str) (version today : Str) :
    RunResult :=
  match w.head with
  | Except.error e => bail (wrapErr (str "failed to get head ref") e)
  | Except.ok _ =>
    match w.logSetup with
    | Except.error e => bail (wrapErr (str "failed to get commit log") e)
    | Except.ok _ =>
      let rel : Release :=
        { Version := version, Date := today,
          Changes := w.commits.map (mkChange base) }
      RunResult.output rel (renderRelease rel)

/-- Embedding of the body of rootCmd.Run (src/cmd/root.go lines 47 to
101): open the repository or bail; if the origin remote resolved, read
element zero of its URL list (a panic when the list is empty), parse it
and bail on a parse error; then continue with head, log and rendering.
today stands for time.Now formatted as a date. -/
def run (w : GitWorld) (version today : Str) : RunResult :=
  match w.repoOpen with
  | Except.error e => bail (wrapErr (str "failed to open git repository") e)
  | Except.ok _ =>
    match w.origin with
    | Except.ok urls =>
      match urls with
      | [] => RunResult.panicked
      | u :: _ =>
        match parseRemoteURL u with
        | Except.error e => bail (errText e)
        | Except.ok r => buildAndRender w (some r) version today
    | Except.error _ => buildAndRender w none version today

/-- Embedding of Execute: cobra enforces MinimumNArgs 1, and a failed
validation reaches bail through rootCmd.Execute; otherwise args[0] is
the version and the command body runs. -/
def Execute (args : List Str) (w : GitWorld) (today : Str) : RunResult :=
  match args with
  | [] => bail (str "requires at least 1 arg(s), only received 0")
  | v :: _ => run w v today

/-- The link base chosen by rootCmd.Run: none when the origin remote
did not resolve, or the parse of the first configured URL of the origin
remote when it did. -/
def originBase (w : GitWorld) (base : Option Str) : Prop :=
  (∃ e, w.origin = Except.error e ∧ base = none) ∨
  (∃ u us r, w.origin = Except.ok (u :: us) ∧ parseRemoteURL u = Except.ok r ∧
    base = some r)

/-- A world where opening the repository fails. -/
def wOpenFail : GitWorld :=
  { repoOpen := Except.error (str "repository does not exist"),
    origin := Except.error (str "remote not found"),
    head := Except.error (str "reference not found"),
    logSetup := Except.ok (), commits := [], iterErr := none }

/-- A healthy world with no origin remote and one commit. -/
def wNoOrigin : GitWorld :=
  { repoOpen := Except.ok (),
    origin := Except.error (str "remote not found"),
    head := Except.ok (str "abcdef1234567"), logSetup := Except.ok (),
    commits := [(str "abcdef1234567", str "Initial commit")], iterErr := none }

/-- A healthy world with an origin remote in SSH form and one commit. -/
def wWithOrigin : GitWorld :=
  { repoOpen := Except.ok (),
    origin := Except.ok [str "git@github.com:acme/widget.git"],
    head := Except.ok (str "abcdef1234567"), logSetup := Except.ok (),
    commits := [(str "abcdef1234567", str "Add feature")], iterErr := none }

/-- A world whose origin remote resolves but carries an empty URL list. -/
def wEmptyURLs : GitWorld :=
  { repoOpen := Except.ok (), origin := Except.ok [],
    head := Except.ok (str "abcdef1234567"), logSetup := Except.ok (),
    commits := [], iterErr := none }

/-- A world whose log iterator yields one commit and then stops with an
error, the situation of a history walk failing partway. -/
def wIterFail : GitWorld :=
  { repoOpen := Except.ok (),
    origin := Except.error (str "remote not found"),
    head := Except.ok (str "abcdef1234567"), logSetup := Except.ok (),
    commits := [(str "abcdef1234567", str "Initial commit")],
    iterErr := some (str "object not found") }

/-- The single Change assembled from the commit of wNoOrigin. -/
def chInit : Change :=
  { SHA := str "abcdef1", Title := str "Initial commit", URL := [] }

/-- The Release assembled by a run against wNoOrigin on a given date. -/
def relInit (d : Str) : Release :=
  { Version := str "1.0.0", Date := d, Changes := [chInit] }


theorem isPrefixOf_append_self : ∀ (l t : Str), l.isPrefixOf (l ++ t) = true
  | [], _ => by simp [List.isPrefixOf]
  | c :: cs, t => by
    simp only [List.cons_append, List.isPrefixOf_cons₂_self]
    exact isPrefixOf_append_self cs t

theorem httpsPre_isPrefixOf_gitAt (l : Str) :
    httpsPre.isPrefixOf (gitAtPre ++ l) = false := rfl

theorem isSuffixOf_append_self (l suf : Str) :
    suf.isSuffixOf (l ++ suf) = true := by
  simp [List.isSuffixOf, List.reverse_append, isPrefixOf_append_self]

theorem trimSuf_append (suf l : Str) : trimSuf suf (l ++ suf) = l := by
  have hlen : (l ++ suf).length - suf.length = l.length := by
    simp [List.length_append]
  simp [trimSuf, isSuffixOf_append_self, hlen, List.take_left]

theorem trimSuf_of_not_suf (suf l : Str) (h : ¬ suf.isSuffixOf l = true) :
    trimSuf suf l = l := by
  simp [trimSuf, h]

theorem splitOnChar_takeWhile (sep : Char) :
    ∀ l : Str, ∃ ps, splitOnChar sep l = l.takeWhile (fun c => c ≠ sep) :: ps
  | [] => ⟨[], rfl⟩
  | c :: cs => by
    obtain ⟨ps, hps⟩ := splitOnChar_takeWhile sep cs
    by_cases hc : c = sep
    · exact ⟨splitOnChar sep cs, by simp [splitOnChar, List.takeWhile_cons, hc]⟩
    · refine ⟨ps, ?_⟩
      simp [splitOnChar, hc, hps, List.takeWhile_cons]

theorem splitOnChar_ne_nil (sep : Char) (l : Str) : splitOnChar sep l ≠ [] := by
  obtain ⟨ps, hps⟩ := splitOnChar_takeWhile sep l
  simp [hps]

theorem splitOnChar_headD (sep : Char) (l : Str) :
    (splitOnChar sep l).headD [] = l.takeWhile (fun c => c ≠ sep) := by
  obtain ⟨ps, hps⟩ := splitOnChar_takeWhile sep l
  simp [hps]

theorem splitOnChar_eq_single (sep : Char) :
    ∀ l : Str, sep ∉ l → splitOnChar sep l = [l]
  | [], _ => rfl
  | c :: cs, h => by
    have hc : ¬ c = sep := fun hh => h (hh ▸ List.mem_cons_self c cs)
    have hcs : sep ∉ cs := fun hh => h (List.mem_cons_of_mem c hh)
    have ih := splitOnChar_eq_single sep cs hcs
    simp [splitOnChar, hc, ih]

theorem splitOnChar_append_cons (sep : Char) :
    ∀ (a b : Str), sep ∉ a →
      splitOnChar sep (a ++ sep :: b) = a :: splitOnChar sep b
  | [], b, _ => by simp [splitOnChar]
  | c :: a', b, h => by
    have hc : ¬ c = sep := fun hh => h (hh ▸ List.mem_cons_self c a')
    have ha' : sep ∉ a' := fun hh => h (List.mem_cons_of_mem c hh)
    have ih := splitOnChar_append_cons sep a' b ha'
    simp [splitOnChar, hc, ih]

theorem takeWhile_eq_self_of (p : Char → Bool) :
    ∀ l : Str, (∀ x ∈ l, p x = true) → l.takeWhile p = l
  | [], _ => rfl
  | c :: cs, h => by
    have hc := h c (List.mem_cons_self c cs)
    have hcs := takeWhile_eq_self_of p cs (fun x hx => h x (List.mem_cons_of_mem c hx))
    simp [List.takeWhile_cons, hc, hcs]

theorem eq_append_drop_of_isPre (l url : Str) (h : l.isPrefixOf url = true) :
    url = l ++ url.drop l.length := by
  have h2 : l <+: url := by simpa using h
  obtain ⟨t, ht⟩ := h2
  subst ht
  rw [List.drop_left]

theorem sep_decomp (sep : Char) :
    ∀ l : Str, sep ∈ l →
      l = l.takeWhile (fun c => c ≠ sep) ++
        sep :: (l.dropWhile (fun c => c ≠ sep)).drop 1 ∧
      sep ∉ l.takeWhile (fun c => c ≠ sep)
  | [], h => absurd h (List.not_mem_nil sep)
  | c :: cs, h => by
    by_cases hc : c = sep
    · subst hc
      constructor
      · simp [List.takeWhile_cons, List.dropWhile_cons]
      · simp [List.takeWhile_cons]
    · have hcs : sep ∈ cs := by
        rcases List.mem_cons.mp h with h | h
        · exact absurd h.symm hc
        · exact h
      obtain ⟨ih1, ih2⟩ := sep_decomp sep cs hcs
      have hpc : (fun c => decide (c ≠ sep)) c = true := by simp [hc]
      constructor
      · rw [@List.takeWhile_cons_of_pos _ (fun c => decide (c ≠ sep)) c cs hpc,
          @List.dropWhile_cons_of_pos _ (fun c => decide (c ≠ sep)) c cs hpc,
          List.cons_append]
        exact congrArg (c :: ·) ih1
      · rw [@List.takeWhile_cons_of_pos _ (fun c => decide (c ≠ sep)) c cs hpc]
        intro hm
        rcases List.mem_cons.mp hm with h | h
        · exact hc h.symm
        · exact ih2 h

/-- Claim C3: every input of the form https host slash workspace slash
repo, with or without a trailing .git, where the three segments are
non-empty, contain no further slash, and the repo segment is taken
without the optional .git suffix, is accepted by parseRemoteURL and
normalized to exactly https host slash workspace slash repo. -/
theorem C3_https_normalize_ok (h w r : Str)
    (hne1 : h ≠ []) (hne2 : w ≠ []) (hne3 : r ≠ [])
    (hh : '/' ∉ h) (hw : '/' ∉ w) (hr : '/' ∉ r)
    (hg : ¬ dotGit.isSuffixOf r = true) :
    parseRemoteURL (httpsPre ++ (h ++ '/' :: (w ++ '/' :: r))) =
      Except.ok (httpsPre ++ (h ++ '/' :: (w ++ '/' :: r))) ∧
    parseRemoteURL (httpsPre ++ (h ++ '/' :: (w ++ '/' :: (r ++ dotGit)))) =
      Except.ok (httpsPre ++ (h ++ '/' :: (w ++ '/' :: r))) := by
  constructor
  · have hsplit : splitOnChar '/' (h ++ '/' :: (w ++ '/' :: r)) = [h, w, r] := by
      rw [splitOnChar_append_cons '/' h _ hh, splitOnChar_append_cons '/' w _ hw,
        splitOnChar_eq_single '/' r hr]
    simp [parseRemoteURL, isPrefixOf_append_self, List.drop_left, hsplit,
      trimSuf_of_not_suf _ _ hg]
  · have hrg : '/' ∉ r ++ dotGit := by
      intro hm
      rcases List.mem_append.mp hm with hm | hm
      · exact hr hm
      · simp [dotGit] at hm
    have hsplit : splitOnChar '/' (h ++ '/' :: (w ++ '/' :: (r ++ dotGit))) =
        [h, w, r ++ dotGit] := by
      rw [splitOnChar_append_cons '/' h _ hh, splitOnChar_append_cons '/' w _ hw,
        splitOnChar_eq_single '/' (r ++ dotGit) hrg]
    simp [parseRemoteURL, isPrefixOf_append_self, List.drop_left, hsplit,
      trimSuf_append]

theorem C3_https_normalize_ok_witness :
    parseRemoteURL
        (httpsPre ++ (str "github.com" ++ '/' :: (str "acme" ++ '/' :: str "widget"))) =
      Except.ok
        (httpsPre ++ (str "github.com" ++ '/' :: (str "acme" ++ '/' :: str "widget"))) ∧
    parseRemoteURL
        (httpsPre ++
          (str "github.com" ++ '/' :: (str "acme" ++ '/' :: (str "widget" ++ dotGit)))) =
      Except.ok
        (httpsPre ++ (str "github.com" ++ '/' :: (str "acme" ++ '/' :: str "widget"))) :=
  C3_https_normalize_ok (str "github.com") (str "acme") (str "widget")
    (by decide) (by decide) (by decide) (by decide) (by decide) (by decide) (by decide)

/-- Claim C10: an https input with more than three slash-separated
segments after the scheme marker is accepted: the first three segments
become host, workspace and repo and everything after the third slash is
silently discarded. -/
theorem C10_https_extra_segments (h w r rest : Str)
    (hh : '/' ∉ h) (hw : '/' ∉ w) (hr : '/' ∉ r)
    (hg : ¬ dotGit.isSuffixOf r = true) :
    parseRemoteURL (httpsPre ++ (h ++ '/' :: (w ++ '/' :: (r ++ '/' :: rest)))) =
      Except.ok (httpsPre ++ (h ++ '/' :: (w ++ '/' :: r))) := by
  have hsplit : splitOnChar '/' (h ++ '/' :: (w ++ '/' :: (r ++ '/' :: rest))) =
      h :: w :: r :: splitOnChar '/' rest := by
    rw [splitOnChar_append_cons '/' h _ hh, splitOnChar_append_cons '/' w _ hw,
      splitOnChar_append_cons '/' r _ hr]
  simp [parseRemoteURL, isPrefixOf_append_self, List.drop_left, hsplit,
    trimSuf_of_not_suf _ _ hg]

theorem C10_https_extra_segments_witness :
    parseRemoteURL
        (httpsPre ++ (str "host" ++ '/' :: (str "ws" ++ '/' :: (str "repo" ++ '/' :: str "extra")))) =
      Except.ok (httpsPre ++ (str "host" ++ '/' :: (str "ws" ++ '/' :: str "repo"))) :=
  C10_https_extra_segments (str "host") (str "ws") (str "repo") (str "extra")
    (by decide) (by decide) (by decide) (by decide)

/-- Claim C4, counterexample: the source does not split the remainder
on the first colon only. On git at h colon w slash r colon z, splitting
on the first colon would give path w slash r colon z and hence the
result https h slash w slash r colon z, but the source splits on every
colon and keeps only the part between the first and the second one, so
it returns https h slash w slash r instead. -/
theorem C4_first_colon_refuted :
    parseRemoteURL (str "git@h:w/r:z") = Except.ok (str "https://h/w/r") ∧
    (str "https://h/w/r" : Str) ≠ str "https://h/w/r:z" :=
  ⟨rfl, by decide⟩

/-- Claim C4 as amended: for inputs starting with git at, the remainder
is split on every colon, the first segment is the host and the second
segment, the text between the first and the second colon, is the path;
the path is split on slash, its first two segments are workspace and
repo, a trailing .git is stripped from the repo; in particular every
URL of the form git at host colon ws slash repo, with or without a
trailing .git, whose segments are free of colon, whose ws and repo are
free of slash, and whose repo is taken without the optional .git
suffix, yields https host slash ws slash repo. -/
theorem C4_ssh_normalize_amended (h w r : Str)
    (hne1 : h ≠ []) (hne2 : w ≠ []) (hne3 : r ≠ [])
    (hch : ':' ∉ h) (hcw : ':' ∉ w) (hcr : ':' ∉ r)
    (hw2 : '/' ∉ w) (hr2 : '/' ∉ r)
    (hg : ¬ dotGit.isSuffixOf r = true) :
    parseRemoteURL (gitAtPre ++ (h ++ ':' :: (w ++ '/' :: r))) =
      Except.ok (httpsPre ++ (h ++ '/' :: (w ++ '/' :: r))) ∧
    parseRemoteURL (gitAtPre ++ (h ++ ':' :: (w ++ '/' :: (r ++ dotGit)))) =
      Except.ok (httpsPre ++ (h ++ '/' :: (w ++ '/' :: r))) := by
  constructor
  · have hnc : ':' ∉ w ++ '/' :: r := by
      intro hm
      rcases List.mem_append.mp hm with hm | hm
      · exact hcw hm
      · rcases List.mem_cons.mp hm with hm | hm
        · exact absurd hm (by decide)
        · exact hcr hm
    have hsplitc : splitOnChar ':' (h ++ ':' :: (w ++ '/' :: r)) =
        [h, w ++ '/' :: r] := by
      rw [splitOnChar_append_cons ':' h _ hch, splitOnChar_eq_single ':' _ hnc]
    have hsplits : splitOnChar '/' (w ++ '/' :: r) = [w, r] := by
      rw [splitOnChar_append_cons '/' w _ hw2, splitOnChar_eq_single '/' r hr2]
    simp [parseRemoteURL, isPrefixOf_append_self, httpsPre_isPrefixOf_gitAt,
      List.drop_left, hsplitc, hsplits, trimSuf_of_not_suf _ _ hg]
  · have hncg : ':' ∉ r ++ dotGit := by
      intro hm
      rcases List.mem_append.mp hm with hm | hm
      · exact hcr hm
      · simp [dotGit] at hm
    have hnsg : '/' ∉ r ++ dotGit := by
      intro hm
      rcases List.mem_append.mp hm with hm | hm
      · exact hr2 hm
      · simp [dotGit] at hm
    have hnc : ':' ∉ w ++ '/' :: (r ++ dotGit) := by
      intro hm
      rcases List.mem_append.mp hm with hm | hm
      · exact hcw hm
      · rcases List.mem_cons.mp hm with hm | hm
        · exact absurd hm (by decide)
        · exact hncg hm
    have hsplitc : splitOnChar ':' (h ++ ':' :: (w ++ '/' :: (r ++ dotGit))) =
        [h, w ++ '/' :: (r ++ dotGit)] := by
      rw [splitOnChar_append_cons ':' h _ hch, splitOnChar_eq_single ':' _ hnc]
    have hsplits : splitOnChar '/' (w ++ '/' :: (r ++ dotGit)) = [w, r ++ dotGit] := by
      rw [splitOnChar_append_cons '/' w _ hw2,
        splitOnChar_eq_single '/' (r ++ dotGit) hnsg]
    simp [parseRemoteURL, isPrefixOf_append_self, httpsPre_isPrefixOf_gitAt,
      List.drop_left, hsplitc, hsplits, trimSuf_append]

theorem C4_ssh_normalize_amended_witness :
    parseRemoteURL
        (gitAtPre ++ (str "github.com" ++ ':' :: (str "acme" ++ '/' :: str "widget"))) =
      Except.ok
        (httpsPre ++ (str "github.com" ++ '/' :: (str "acme" ++ '/' :: str "widget"))) ∧
    parseRemoteURL
        (gitAtPre ++
          (str "github.com" ++ ':' :: (str "acme" ++ '/' :: (str "widget" ++ dotGit)))) =
      Except.ok
        (httpsPre ++ (str "github.com" ++ '/' :: (str "acme" ++ '/' :: str "widget"))) :=
  C4_ssh_normalize_amended (str "github.com") (str "acme") (str "widget")
    (by decide) (by decide) (by decide) (by decide) (by decide) (by decide)
    (by decide) (by decide) (by decide)

/-- Claim C5: parseRemoteURL reports an unsupported remote URL for
every input starting with neither the https marker nor the git at
marker; it reports an invalid remote URL when the input starts with the
https marker but the remainder has fewer than three slash-separated
segments; and it reports an invalid remote URL when the input starts
with the git at marker but the remainder lacks a colon or the part
after the first colon has no slash, that is, fewer than two
slash-separated path segments. -/
theorem C5_error_classification (url : Str) :
    (httpsPre.isPrefixOf url = false → gitAtPre.isPrefixOf url = false →
      parseRemoteURL url = Except.error (ParseErr.unsupported url)) ∧
    (httpsPre.isPrefixOf url = true →
      (splitOnChar '/' (url.drop httpsPre.length)).length < 3 →
      parseRemoteURL url = Except.error (ParseErr.invalid url)) ∧
    (gitAtPre.isPrefixOf url = true →
      (':' ∉ url.drop gitAtPre.length ∨
        '/' ∉ List.drop 1
          ((url.drop gitAtPre.length).dropWhile (fun c => c ≠ ':'))) →
      parseRemoteURL url = Except.error (ParseErr.invalid url)) := by
  refine ⟨?_, ?_, ?_⟩
  · intro h1 h2
    simp [parseRemoteURL, h1, h2]
  · intro h1 hlen
    obtain ⟨t, rfl⟩ : ∃ t, url = httpsPre ++ t :=
      ⟨url.drop httpsPre.length, eq_append_drop_of_isPre httpsPre url h1⟩
    rw [List.drop_left] at hlen
    rcases hs : splitOnChar '/' t with _ | ⟨a, _ | ⟨b, _ | ⟨c, rest⟩⟩⟩
    · simp [parseRemoteURL, isPrefixOf_append_self, List.drop_left, hs]
    · simp [parseRemoteURL, isPrefixOf_append_self, List.drop_left, hs]
    · simp [parseRemoteURL, isPrefixOf_append_self, List.drop_left, hs]
    · rw [hs] at hlen
      simp [List.length_cons] at hlen
      omega
  · intro h1 hdisj
    obtain ⟨t, rfl⟩ : ∃ t, url = gitAtPre ++ t :=
      ⟨url.drop gitAtPre.length, eq_append_drop_of_isPre gitAtPre url h1⟩
    rw [List.drop_left] at hdisj
    by_cases hc : ':' ∈ t
    · have hns : '/' ∉ List.drop 1 (t.dropWhile (fun c => c ≠ ':')) := by
        rcases hdisj with hnc | hns
        · exact absurd hc hnc
        · exact hns
      obtain ⟨hdec, hna⟩ := sep_decomp ':' t hc
      have hsplitc : splitOnChar ':' t =
          t.takeWhile (fun c => c ≠ ':') ::
            splitOnChar ':' (List.drop 1 (t.dropWhile (fun c => c ≠ ':'))) := by
        conv_lhs => rw [hdec]
        rw [splitOnChar_append_cons ':' _ _ hna]
      obtain ⟨ps, hps⟩ :=
        splitOnChar_takeWhile ':' (List.drop 1 (t.dropWhile (fun c => c ≠ ':')))
      have hnb0 : '/' ∉
          (List.drop 1 (t.dropWhile (fun c => c ≠ ':'))).takeWhile
            (fun c => c ≠ ':') :=
        fun hm => hns (List.takeWhile_subset _ hm)
      have hsingle : splitOnChar '/'
          ((List.drop 1 (t.dropWhile (fun c => c ≠ ':'))).takeWhile
            (fun c => c ≠ ':')) =
          [(List.drop 1 (t.dropWhile (fun c => c ≠ ':'))).takeWhile
            (fun c => c ≠ ':')] :=
        splitOnChar_eq_single '/' _ hnb0
      simp only [decide_not, List.drop_one] at hps hsingle hsplitc
      simp [parseRemoteURL, isPrefixOf_append_self, httpsPre_isPrefixOf_gitAt,
        List.drop_left, hsplitc, hps, hsingle]
    · have hnc : ':' ∉ t := hc
      simp [parseRemoteURL, isPrefixOf_append_self, httpsPre_isPrefixOf_gitAt,
        List.drop_left, splitOnChar_eq_single ':' t hnc]

theorem C5_error_classification_witness :
    parseRemoteURL (str "ftp://host/ws/repo") =
      Except.error (ParseErr.unsupported (str "ftp://host/ws/repo")) ∧
    parseRemoteURL (str "https://onlyonepart") =
      Except.error (ParseErr.invalid (str "https://onlyonepart")) ∧
    parseRemoteURL (str "git@host:onlyrepo") =
      Except.error (ParseErr.invalid (str "git@host:onlyrepo")) :=
  ⟨(C5_error_classification (str "ftp://host/ws/repo")).1 (by decide) (by decide),
   (C5_error_classification (str "https://onlyonepart")).2.1 (by decide) (by decide),
   (C5_error_classification (str "git@host:onlyrepo")).2.2 (by decide)
     (Or.inr (by decide))⟩


theorem bail_exited (m : Str) (st : Nat) (ch : Channel) (line : Str)
    (h : bail m = RunResult.exited st ch line) :
    st = 1 ∧ ch = Channel.stdout ∧ ∃ m2, line = bailLine m2 := by
  simp only [bail, RunResult.exited.injEq] at h
  exact ⟨h.1.symm, h.2.1.symm, m, h.2.2.symm⟩

theorem buildAndRender_output_iff (w : GitWorld) (base : Option Str)
    (v d : Str) (rel : Release) (out : Str) :
    buildAndRender w base v d = RunResult.output rel out ↔
      ∃ hh, w.head = Except.ok hh ∧ w.logSetup = Except.ok () ∧
        rel = { Version := v, Date := d, Changes := w.commits.map (mkChange base) } ∧
        out = renderRelease rel := by
  constructor
  · intro h
    rcases hhd : w.head with e2 | hh
    · simp only [buildAndRender, hhd] at h
      simp [bail] at h
    · rcases hls : w.logSetup with e3 | u
      · simp only [buildAndRender, hhd, hls] at h
        simp [bail] at h
      · cases u
        simp only [buildAndRender, hhd, hls, RunResult.output.injEq] at h
        obtain ⟨h1, h2⟩ := h
        subst h1
        exact ⟨hh, rfl, rfl, rfl, h2.symm⟩
  · rintro ⟨hh, hhd, hls, hrel, hout⟩
    subst hrel
    subst hout
    simp [buildAndRender, hhd, hls]

theorem run_output_iff (w : GitWorld) (v d : Str) (rel : Release) (out : Str) :
    run w v d = RunResult.output rel out ↔
      ∃ base, originBase w base ∧ w.repoOpen = Except.ok () ∧
        (∃ hh, w.head = Except.ok hh) ∧ w.logSetup = Except.ok () ∧
        rel = { Version := v, Date := d, Changes := w.commits.map (mkChange base) } ∧
        out = renderRelease rel := by
  constructor
  · intro h
    rcases hro : w.repoOpen with e | u
    · simp only [run, hro] at h
      simp [bail] at h
    · cases u
      rcases hor : w.origin with e | urls
      · simp only [run, hro, hor] at h
        rcases (buildAndRender_output_iff w none v d rel out).mp h with
          ⟨hh, hhd, hls, hrel, hout⟩
        exact ⟨none, Or.inl ⟨e, hor, rfl⟩, rfl, ⟨hh, hhd⟩, hls, hrel, hout⟩
      · rcases urls with _ | ⟨u0, us⟩
        · simp only [run, hro, hor] at h
          simp at h
        · rcases hp : parseRemoteURL u0 with pe | r
          · simp only [run, hro, hor, hp] at h
            simp [bail] at h
          · simp only [run, hro, hor, hp] at h
            rcases (buildAndRender_output_iff w (some r) v d rel out).mp h with
              ⟨hh, hhd, hls, hrel, hout⟩
            exact ⟨some r, Or.inr ⟨u0, us, r, hor, hp, rfl⟩, rfl, ⟨hh, hhd⟩, hls,
              hrel, hout⟩
  · rintro ⟨base, hob, hro, ⟨hh, hhd⟩, hls, hrel, hout⟩
    subst hrel
    subst hout
    rcases hob with ⟨e, hor, rfl⟩ | ⟨u0, us, r, hor, hp, rfl⟩
    · simp [run, buildAndRender, hro, hor, hhd, hls]
    · simp [run, buildAndRender, hro, hor, hp, hhd, hls]

theorem buildAndRender_exited_shape (w : GitWorld) (base : Option Str)
    (v d : Str) (st : Nat) (ch : Channel) (line : Str)
    (h : buildAndRender w base v d = RunResult.exited st ch line) :
    st = 1 ∧ ch = Channel.stdout ∧ ∃ m, line = bailLine m := by
  rcases hhd : w.head with e2 | hh
  · simp only [buildAndRender, hhd] at h
    exact bail_exited _ _ _ _ h
  · rcases hls : w.logSetup with e3 | u
    · simp only [buildAndRender, hhd, hls] at h
      exact bail_exited _ _ _ _ h
    · cases u
      simp only [buildAndRender, hhd, hls] at h
      simp at h

theorem run_exited_shape (w : GitWorld) (v d : Str) (st : Nat) (ch : Channel)
    (line : Str) (h : run w v d = RunResult.exited st ch line) :
    st = 1 ∧ ch = Channel.stdout ∧ ∃ m, line = bailLine m := by
  rcases hro : w.repoOpen with e | u
  · simp only [run, hro] at h
    exact bail_exited _ _ _ _ h
  · cases u
    rcases hor : w.origin with e | urls
    · simp only [run, hro, hor] at h
      exact buildAndRender_exited_shape _ _ _ _ _ _ _ h
    · rcases urls with _ | ⟨u0, us⟩
      · simp only [run, hro, hor] at h
        simp at h
      · rcases hp : parseRemoteURL u0 with pe | r
        · simp only [run, hro, hor, hp] at h
          exact bail_exited _ _ _ _ h
        · simp only [run, hro, hor, hp] at h
          exact buildAndRender_exited_shape _ _ _ _ _ _ _ h

/-- Claim C1, counterexample: a failing invocation (repository open
fails) exits with status 1 and prints the red error line, but on
standard output, not on standard error, refuting the stderr part of
the claim. -/
theorem C1_stderr_refuted :
    Execute [str "1.0.0"] wOpenFail (str "2026-10-11") =
      RunResult.exited 1 Channel.stdout
        (bailLine (wrapErr (str "failed to open git repository")
          (str "repository does not exist"))) ∧
    Channel.stdout ≠ Channel.stderr :=
  ⟨rfl, by decide⟩

/-- Claim C1 as amended: every invocation that fails at any stage
(argument validation, repository open, remote URL parse, head
resolution, or log setup) exits with status 1 and prints one
red-highlighted formatted error line, on standard output. -/
theorem C1_error_exit_amended (args : List Str) (w : GitWorld) (today : Str)
    (st : Nat) (ch : Channel) (line : Str)
    (h : Execute args w today = RunResult.exited st ch line) :
    st = 1 ∧ ch = Channel.stdout ∧ ∃ m, line = bailLine m := by
  rcases args with _ | ⟨v, rest⟩
  · simp only [Execute] at h
    exact bail_exited _ _ _ _ h
  · simp only [Execute] at h
    exact run_exited_shape _ _ _ _ _ _ h

theorem C1_error_exit_amended_witness :
    1 = 1 ∧ Channel.stdout = Channel.stdout ∧
    ∃ m, bailLine (wrapErr (str "failed to open git repository")
      (str "repository does not exist")) = bailLine m :=
  C1_error_exit_amended [str "1.0.0"] wOpenFail (str "2026-10-11") 1
    Channel.stdout
    (bailLine (wrapErr (str "failed to open git repository")
      (str "repository does not exist"))) rfl

/-- Claim C2, code bug: when the history walk fails partway the source
assigns the ForEach error to err and never checks it, so the error is
not surfaced. In wIterFail the log iterator stops with an object not
found error after yielding one commit, yet the run still renders and
prints a non-empty partial changelog instead of terminating with an
error. -/
theorem C2_iter_error_ignored :
    wIterFail.iterErr = some (str "object not found") ∧
    run wIterFail (str "1.0.0") (str "2026-10-11") =
      RunResult.output
        { Version := str "1.0.0", Date := str "2026-10-11",
          Changes := [{ SHA := str "abcdef1", Title := str "Initial commit", URL := [] }] }
        (str "\n## [1.0.0] - 2026-10-11\n\n- Initial commit [abcdef1]\n") ∧
    (str "\n## [1.0.0] - 2026-10-11\n\n- Initial commit [abcdef1]\n" : Str) ≠ [] :=
  ⟨rfl, rfl, by decide⟩

/-- Claim C6: in every Release a run produces, either the origin remote
existed, its first configured URL normalized successfully, and every
Change URL equals the base followed by the commits path and the full
hash of one of the walked commits and is non-empty, or every Change URL
is empty. -/
theorem C6_url_dichotomy (w : GitWorld) (v d : Str) (rel : Release) (out : Str)
    (h : run w v d = RunResult.output rel out) :
    (∃ u us base, w.origin = Except.ok (u :: us) ∧
      parseRemoteURL u = Except.ok base ∧
      ∀ c ∈ rel.Changes, ∃ p, p ∈ w.commits ∧
        c.URL = base ++ str "/commits/" ++ p.1 ∧ c.URL ≠ []) ∨
    (∀ c ∈ rel.Changes, c.URL = []) := by
  rcases (run_output_iff w v d rel out).mp h with
    ⟨base, hob, hro, hex, hls, hrel, hout⟩
  subst hrel
  rcases hob with ⟨e, hor, rfl⟩ | ⟨u0, us, r, hor, hp, rfl⟩
  · right
    intro c hc
    obtain ⟨p, hpm, rfl⟩ := List.mem_map.mp hc
    simp [mkChange]
  · left
    refine ⟨u0, us, r, hor, hp, ?_⟩
    intro c hc
    obtain ⟨p, hpm, rfl⟩ := List.mem_map.mp hc
    have hne : str "/commits/" ≠ ([] : Str) := by decide
    refine ⟨p, hpm, rfl, ?_⟩
    simp [mkChange, List.append_eq_nil, hne]

theorem C6_url_dichotomy_witness :
    (∃ u us base, wWithOrigin.origin = Except.ok (u :: us) ∧
      parseRemoteURL u = Except.ok base ∧
      ∀ c ∈ [{ SHA := str "abcdef1", Title := str "Add feature", URL := str "https://github.com/acme/widget/commits/abcdef1234567" }],
        ∃ p, p ∈ wWithOrigin.commits ∧
          (c : Change).URL = base ++ str "/commits/" ++ p.1 ∧ c.URL ≠ []) ∨
    (∀ c ∈ [{ SHA := str "abcdef1", Title := str "Add feature", URL := str "https://github.com/acme/widget/commits/abcdef1234567" }],
      (c : Change).URL = []) :=
  C6_url_dichotomy wWithOrigin (str "1.0.0") (str "2026-10-11")
    { Version := str "1.0.0", Date := str "2026-10-11",
      Changes := [{ SHA := str "abcdef1", Title := str "Add feature", URL := str "https://github.com/acme/widget/commits/abcdef1234567" }] }
    (renderRelease
      { Version := str "1.0.0", Date := str "2026-10-11",
        Changes := [{ SHA := str "abcdef1", Title := str "Add feature", URL := str "https://github.com/acme/widget/commits/abcdef1234567" }] })
    rfl

/-- Claim C7: every Change of a produced Release comes from a walked
commit; its SHA is the first seven characters of the full hash, hence
of length exactly seven when hashes have at least seven characters, and
its Title is the message up to and excluding the first line break, the
whole message when there is none, and empty when the message is empty. -/
theorem C7_sha_title (w : GitWorld) (v d : Str) (rel : Release) (out : Str)
    (hlen : ∀ p ∈ w.commits, 7 ≤ (p : Str × Str).1.length)
    (h : run w v d = RunResult.output rel out) :
    ∀ c ∈ rel.Changes, ∃ p, p ∈ w.commits ∧
      c.SHA = p.1.take 7 ∧ c.SHA.length = 7 ∧
      c.Title = p.2.takeWhile (fun ch => ch ≠ '\n') ∧
      ('\n' ∉ p.2 → c.Title = p.2) ∧
      (p.2 = [] → c.Title = []) := by
  rcases (run_output_iff w v d rel out).mp h with
    ⟨base, hob, hro, hex, hls, hrel, hout⟩
  subst hrel
  intro c hc
  obtain ⟨p, hpm, rfl⟩ := List.mem_map.mp hc
  have hTitle : (mkChange base p).Title =
      p.2.takeWhile (fun ch => ch ≠ '\n') := by
    simp only [mkChange]
    exact splitOnChar_headD '\n' p.2
  refine ⟨p, hpm, rfl, ?_, hTitle, ?_, ?_⟩
  · have h7 := hlen p hpm
    simp only [mkChange, List.length_take]
    omega
  · intro hnl
    have hall : ∀ x ∈ p.2, (fun ch => decide (ch ≠ '\n')) x = true := by
      intro x hx
      simp only [decide_eq_true_eq]
      intro he
      exact hnl (he ▸ hx)
    rw [hTitle]
    exact takeWhile_eq_self_of _ p.2 hall
  · intro hp2
    simp [mkChange, hp2, splitOnChar]

theorem C7_sha_title_witness :
    ∃ p, p ∈ wNoOrigin.commits ∧
      chInit.SHA = p.1.take 7 ∧ chInit.SHA.length = 7 ∧
      chInit.Title = p.2.takeWhile (fun ch => ch ≠ '\n') ∧
      ('\n' ∉ p.2 → chInit.Title = p.2) ∧
      (p.2 = [] → chInit.Title = []) :=
  C7_sha_title wNoOrigin (str "1.0.0") (str "2026-10-11")
    (relInit (str "2026-10-11")) (renderRelease (relInit (str "2026-10-11")))
    (by decide) rfl chInit (by simp [relInit, chInit])

/-- Claim C8: against the same world and the same version argument, two
runs differ only through the date passed for today: both outputs are
the render of the same version and the same change list, with only the
date field differing. -/
theorem C8_date_only_nondeterminism (w : GitWorld) (v d1 d2 : Str)
    (rel1 : Release) (out1 : Str)
    (h : run w v d1 = RunResult.output rel1 out1) :
    ∃ rel2 out2, run w v d2 = RunResult.output rel2 out2 ∧
      rel1.Version = v ∧ rel2.Version = v ∧ rel1.Date = d1 ∧ rel2.Date = d2 ∧
      rel2.Changes = rel1.Changes ∧
      out1 = renderRelease { Version := v, Date := d1, Changes := rel1.Changes } ∧
      out2 = renderRelease { Version := v, Date := d2, Changes := rel1.Changes } := by
  rcases (run_output_iff w v d1 rel1 out1).mp h with
    ⟨base, hob, hro, hex, hls, hrel, hout⟩
  subst hrel
  refine ⟨{ Version := v, Date := d2, Changes := w.commits.map (mkChange base) },
    renderRelease
      { Version := v, Date := d2, Changes := w.commits.map (mkChange base) },
    ?_, rfl, rfl, rfl, rfl, rfl, hout, rfl⟩
  exact (run_output_iff w v d2 _ _).mpr ⟨base, hob, hro, hex, hls, rfl, rfl⟩

theorem C8_date_only_nondeterminism_witness :
    ∃ rel2 out2, run wNoOrigin (str "1.0.0") (str "2026-10-12") =
        RunResult.output rel2 out2 ∧
      (relInit (str "2026-10-11")).Version = str "1.0.0" ∧
      rel2.Version = str "1.0.0" ∧
      (relInit (str "2026-10-11")).Date = str "2026-10-11" ∧
      rel2.Date = str "2026-10-12" ∧
      rel2.Changes = (relInit (str "2026-10-11")).Changes ∧
      renderRelease (relInit (str "2026-10-11")) =
        renderRelease
          { Version := str "1.0.0", Date := str "2026-10-11",
            Changes := (relInit (str "2026-10-11")).Changes } ∧
      out2 = renderRelease
        { Version := str "1.0.0", Date := str "2026-10-12",
          Changes := (relInit (str "2026-10-11")).Changes } :=
  C8_date_only_nondeterminism wNoOrigin (str "1.0.0") (str "2026-10-11")
    (str "2026-10-12") (relInit (str "2026-10-11"))
    (renderRelease (relInit (str "2026-10-11"))) rfl

/-- Claim C9: when the origin remote resolves but its configured URL
list is empty, the read of element zero is out of range: the run panics
rather than reaching any of the specified error paths. -/
theorem C9_empty_urls_panic (w : GitWorld) (v d : Str)
    (hro : w.repoOpen = Except.ok ()) (hor : w.origin = Except.ok []) :
    run w v d = RunResult.panicked := by
  simp [run, hro, hor]

theorem C9_empty_urls_panic_witness :
    run wEmptyURLs (str "1.0.0") (str "2026-10-11") = RunResult.panicked :=
  C9_empty_urls_panic wEmptyURLs (str "1.0.0") (str "2026-10-11") rfl rfl
